import Mathlib

/-!
Verification of the trail-sonification core of `src/app.py` (Boulderiano/trailsound).

The Python source converts a parsed GPX trail into a three-track MIDI score:
it resamples the trail by cumulative 3D distance, derives per-event features
(normalized elevation, speed, smoothed cadence) and maps them to melody, bass
and percussion notes while advancing a musical-time cursor.

Python floats are modelled as exact rationals.  The external gpxpy method
`TrailPoint.distance_3d` (a geodesic computation living outside this
repository) is modelled as an oracle function `dist3d` carried in the
configuration; geodesic distances are nonnegative or `None`, which theorems
assume explicitly where needed.  The duck-typed cadence-extension lookup
`get_cadence_from_point` is modelled as an optional `cadence` field on the
point, exactly the value that function would return.
-/

namespace TrailSound

/-- One parsed GPX track point (`segment.points[i]` in `app.py`).  `cadence`
is the value `get_cadence_from_point` would extract from the point's
extensions (`None` when absent). -/
structure TrailPoint where
  lat : ℚ
  lon : ℚ
  elevation : Option ℚ
  time : Option ℚ
  cadence : Option ℚ
  deriving DecidableEq, Repr

/-! Constants from the header of `app.py`. -/

def RANGO_NOTAS_MELODIA : ℚ := 48
def ESCALA_BASE_MELODIA : ℚ := 60
def MIN_PITCH_BAJO : ℤ := 36
def MAX_PITCH_BAJO : ℤ := 48
def PENTATONIC_SCALE : List ℤ := [0, 2, 4, 7, 9]
def MIN_CADENCE : ℚ := 60
def MAX_CADENCE : ℚ := 200
def VELOCIDAD_MIN_PARA_ESCALA : ℚ := 1/2
def VELOCIDAD_MAX_PARA_ESCALA : ℚ := 7
def THRESHOLD_FAST_SPEED : ℚ := 5/2
def BOMBO_MIDI_NOTE : ℤ := 36
def CAJA_MIDI_NOTE : ℤ := 38
def PERCUSION_VELOCITY : ℤ := 100
def EMA_ALPHA : ℚ := 1/10

/-- Python's builtin `round` on an exact value: round half to even. -/
def roundHalfEven (q : ℚ) : ℤ :=
  if q - (⌊q⌋ : ℚ) < 1/2 then ⌊q⌋
  else if 1/2 < q - (⌊q⌋ : ℚ) then ⌊q⌋ + 1
  else if Int.emod ⌊q⌋ 2 = 0 then ⌊q⌋ else ⌊q⌋ + 1

/-- The accumulator loop inside `snap_to_scale`: scan the scale keeping the
first member with strictly smaller absolute difference. -/
def snapLoop (note_in_octave : ℤ) : List ℤ → ℤ × ℤ → ℤ × ℤ
  | [], acc => acc
  | s :: rest, (min_diff, closest) =>
    let diff := |note_in_octave - s|
    if diff < min_diff then snapLoop note_in_octave rest (diff, s)
    else snapLoop note_in_octave rest (min_diff, closest)

/-- Function snap_to_scale from app.py: round, split into octave and residue
with Python's floor division and modulo, snap the residue to the pentatonic
scale, recompose. -/
def snap_to_scale (pitch : ℚ) : ℤ :=
  let p := roundHalfEven pitch
  let octave := Int.ediv p 12
  let note_in_octave := Int.emod p 12
  let closest := (snapLoop note_in_octave PENTATONIC_SCALE (12, 0)).2
  octave * 12 + closest

/-- Clamping pattern `max(0.0, min(1.0, v))` used throughout
`get_mapping_values`. -/
def clamp01 (x : ℚ) : ℚ := max 0 (min 1 x)

/-- Elevation statistics precomputed once per trail (`ele_min`, `ele_max`,
`ele_range` packed into `data_min_max['ele']`). -/
structure Geom where
  ele_min : ℚ
  ele_max : ℚ
  ele_range : ℚ
  deriving DecidableEq, Repr

/-- The three scaled features returned by `get_mapping_values`. -/
structure MappingValues where
  altitud : ℚ
  ritmo : ℚ
  cadencia : ℚ
  deriving DecidableEq, Repr

/-- The three feature keys of the `scaled_values` dictionary; the UI passes
one of the strings `Altitud`, `Ritmo (Velocidad)`, `Cadencia` for each of
the melody, beat and bass sources. -/
inductive Source where
  | Altitud
  | Ritmo
  | Cadencia
  deriving DecidableEq, Repr

/-- Dictionary lookup `scaled_values[source]`. -/
def MappingValues.get : MappingValues → Source → ℚ
  | v, .Altitud => v.altitud
  | v, .Ritmo => v.ritmo
  | v, .Cadencia => v.cadencia

/-- Function get_mapping_values from app.py.  The elevation access is guarded
by the caller (points without elevation never reach this function). -/
def get_mapping_values (point : TrailPoint) (avg_speed : ℚ) (geom : Geom) :
    MappingValues :=
  let altitud_value :=
    if geom.ele_range > 0 then (point.elevation.getD 0 - geom.ele_min) / geom.ele_range
    else 1/2
  let altitud_scaled := clamp01 altitud_value
  let speed_scaled := clamp01 ((avg_speed - VELOCIDAD_MIN_PARA_ESCALA) /
    (VELOCIDAD_MAX_PARA_ESCALA - VELOCIDAD_MIN_PARA_ESCALA))
  let cadence_value :=
    match point.cadence with
    | some c => c
    | none => MIN_CADENCE + speed_scaled * (MAX_CADENCE - MIN_CADENCE)
  let cadence_scaled := clamp01 ((cadence_value - MIN_CADENCE) / (MAX_CADENCE - MIN_CADENCE))
  ⟨altitud_scaled, speed_scaled, cadence_scaled⟩

/-- Average-speed computation of lines 229-237 of `app.py`: the very first
event uses 1.67 m/s; later events divide the configured distance step by
the elapsed seconds since the last event, falling back to the maximum
scaling speed when no time has elapsed. -/
def avg_speed_calc (distance_step_m : ℚ) (last_point_time : Option ℚ) (t : ℚ) : ℚ :=
  match last_point_time with
  | none => 167/100
  | some t0 =>
    let delta_time_segment := t - t0
    if delta_time_segment > 0 then distance_step_m / delta_time_segment
    else VELOCIDAD_MAX_PARA_ESCALA

/-- Duration quantization bands of lines 252-259 of `app.py`. -/
def quantize_duration (beat_scaled_value : ℚ) : ℚ :=
  if beat_scaled_value > 3/4 then 1/4
  else if beat_scaled_value > 1/2 then 1/2
  else if beat_scaled_value > 1/4 then 1
  else 2

/-- Cadence smoothing of lines 274-277: initialize on the first event
(detected by the threshold still being zero), exponential moving average
afterwards. -/
def smooth_update (next_note_distance smoothed_cadence raw_cadence : ℚ) : ℚ :=
  if next_note_distance = 0 then raw_cadence
  else EMA_ALPHA * raw_cadence + (1 - EMA_ALPHA) * smoothed_cadence

/-- One MIDI note as passed to `midifile.addNote` (track and channel are
implied by which list the note is stored in). -/
structure Note where
  pitch : ℤ
  start : ℚ
  duration : ℚ
  velocity : ℤ
  deriving DecidableEq, Repr

/-- The mutable loop state of `generate_midi_file`, including the notes
already written to each of the three tracks (in `addNote` call order,
which is chronological). -/
structure GenState where
  smoothed_cadence : ℚ
  current_distance : ℚ
  next_note_distance : ℚ
  last_point_time : Option ℚ
  time : ℚ
  melodia : List Note
  bajos : List Note
  percusion : List Note
  deriving DecidableEq, Repr

/-- Configuration of one `generate_midi_file` call.  `dist3d` models the
external gpxpy method `p_curr.distance_3d(p_prev)`. -/
structure Config where
  distance_step_m : ℚ
  tempo : ℚ
  melody_source : Source
  beat_source : Source
  bass_source : Source
  dist3d : TrailPoint → TrailPoint → Option ℚ

/-- Base pitch computed once before the loop:
ESCALA_BASE_MELODIA - RANGO_NOTAS_MELODIA / 2. -/
def pitch_base : ℚ := ESCALA_BASE_MELODIA - RANGO_NOTAS_MELODIA / 2

/-- Raw cadence reconstruction of line 271 of app.py. -/
def raw_cadence_of (scaled : MappingValues) : ℚ :=
  scaled.cadencia * (MAX_CADENCE - MIN_CADENCE) + MIN_CADENCE

/-- Percussion pulse length of lines 281-287 of app.py: convert the smoothed
cadence to pulses per minute and to a duration in score time units. -/
def bdm_of (tempo smoothed_cadence : ℚ) : ℚ :=
  let target_pulses_per_minute := smoothed_cadence * 2
  if target_pulses_per_minute > 0 then (60 / target_pulses_per_minute) * (tempo / 60)
  else 1

/-- Percussion hit for pulse index j (lines 293-302 of app.py): kick on
indices divisible by 4, snare on odd indices when the run is fast, nothing
otherwise. -/
def percPulseAt (time beat_duration_midi ritmo_scaled avg_speed : ℚ) (j : ℕ) :
    Option Note :=
  let pulse_time := time + (j : ℚ) * beat_duration_midi
  if j % 4 = 0 then
    some ⟨BOMBO_MIDI_NOTE, pulse_time, 1/10, PERCUSION_VELOCITY⟩
  else if j % 2 = 1 then
    if ritmo_scaled > 1/2 ∧ avg_speed ≥ THRESHOLD_FAST_SPEED then
      some ⟨CAJA_MIDI_NOTE, pulse_time, 1/10, PERCUSION_VELOCITY⟩
    else none
  else none

/-- Percussion inner loop (lines 292-302): one optional hit per pulse index. -/
def percPulses (time beat_duration_midi : ℚ) (num_pulses : ℕ)
    (ritmo_scaled avg_speed : ℚ) : List Note :=
  (List.range num_pulses).filterMap (percPulseAt time beat_duration_midi ritmo_scaled avg_speed)

/-- Body of the `current_distance >= next_note_distance` branch of the loop,
parameterized by the average speed so that the source's speed rule and the
specification's speed rule can be compared.  `cd` is the already updated
cumulative distance. -/
def eventStepWith (cfg : Config) (geom : Geom) (st : GenState)
    (p_curr : TrailPoint) (cd : ℚ) (avg_speed : ℚ) : GenState :=
  let t := p_curr.time.getD 0
  let scaled := get_mapping_values p_curr avg_speed geom
  let pitch_melodia := snap_to_scale (pitch_base + scaled.get cfg.melody_source * RANGO_NOTAS_MELODIA)
  let duration := quantize_duration (scaled.get cfg.beat_source)
  let pitch_bajo := MIN_PITCH_BAJO +
    roundHalfEven (scaled.get cfg.bass_source * ((MAX_PITCH_BAJO - MIN_PITCH_BAJO : ℤ) : ℚ))
  let raw_cadence := raw_cadence_of scaled
  let smoothed := smooth_update st.next_note_distance st.smoothed_cadence raw_cadence
  let beat_duration_midi := bdm_of cfg.tempo smoothed
  let num_pulses := (⌊duration / beat_duration_midi⌋).toNat
  let pulses := percPulses st.time beat_duration_midi num_pulses scaled.ritmo avg_speed
  let note_duration := max (1/4) (duration * (9/10))
  { smoothed_cadence := smoothed
    current_distance := cd
    next_note_distance := st.next_note_distance + cfg.distance_step_m
    last_point_time := some t
    time := st.time + duration
    melodia := st.melodia ++ [⟨pitch_melodia, st.time, note_duration, 100⟩]
    bajos := st.bajos ++ [⟨pitch_bajo, st.time, note_duration, 90⟩]
    percusion := st.percusion ++ pulses }

/-- Event branch exactly as in the source: the speed comes from
`avg_speed_calc` applied to the configured step and the stored
`last_point_time`. -/
def eventStep (cfg : Config) (geom : Geom) (st : GenState)
    (p_curr : TrailPoint) (cd : ℚ) : GenState :=
  eventStepWith cfg geom st p_curr cd
    (avg_speed_calc cfg.distance_step_m st.last_point_time (p_curr.time.getD 0))

/-- Distance accumulation and conditional event emission for one consecutive
pair that passed the skip guards (lines 221-316 of `app.py`). -/
def procPair (cfg : Config) (geom : Geom) (st : GenState)
    (p_prev p_curr : TrailPoint) : GenState :=
  let distance_increment := (cfg.dist3d p_curr p_prev).getD 0
  let cd := st.current_distance + distance_increment
  if st.next_note_distance ≤ cd then eventStep cfg geom st p_curr cd
  else { st with current_distance := cd }

/-- The point loop of `generate_midi_file` over consecutive pairs
`(points[i-1], points[i])` for `i ≥ 1`.  A point missing elevation or
timestamp, or a predecessor missing a timestamp, is skipped with
`continue` (which also skips the time-ceiling check); after a processed
pair the loop breaks once the musical time reaches 600. -/
def runAux (cfg : Config) (geom : Geom) : GenState → List (TrailPoint × TrailPoint) → GenState
  | st, [] => st
  | st, (p_prev, p_curr) :: rest =>
    if p_curr.elevation = none ∨ p_curr.time = none then runAux cfg geom st rest
    else if p_prev.time = none then runAux cfg geom st rest
    else
      let st' := procPair cfg geom st p_prev p_curr
      if 600 ≤ st'.time then st' else runAux cfg geom st' rest

/-- Consecutive pairs `(points[i-1], points[i])` of the trail. -/
def pairsOf (points : List TrailPoint) : List (TrailPoint × TrailPoint) :=
  points.zip points.tail

/-- Initial loop state: smoothing state seeded with `MIN_CADENCE`,
distances and musical time zero, no previous event, empty tracks. -/
def initState : GenState :=
  { smoothed_cadence := MIN_CADENCE
    current_distance := 0
    next_note_distance := 0
    last_point_time := none
    time := 0
    melodia := []
    bajos := []
    percusion := [] }

/-- Function generate_midi_file on an already-parsed point list: elevation
range precomputation with its fatal ValueError when no point carries
elevation, then the note-generation loop. -/
def generate_midi_file (cfg : Config) (points : List TrailPoint) :
    Except String GenState :=
  match points.filterMap (fun p => p.elevation) with
  | [] => .error "El archivo GPX no contiene datos de elevación válidos."
  | e :: es =>
    let ele_min := es.foldl min e
    let ele_max := es.foldl max e
    let geom : Geom := ⟨ele_min, ele_max, ele_max - ele_min⟩
    .ok (runAux cfg geom initState (pairsOf points))

/-- Projection of a pipeline result onto its final state, defaulting to the
initial state on error. -/
def okStateOf : Except String GenState → GenState
  | .ok st => st
  | .error _ => initState

/-- Success test for a pipeline result. -/
def isOkE : Except String GenState → Bool
  | .ok _ => true
  | .error _ => false

/-- Modelled from the spec: "speed = distanceSinceLastEvent / elapsedSeconds
if elapsedSeconds > 0, else a fixed fallback maximum speed; the very first
event uses a fixed default speed".  This is the speed rule the specification
describes, with the distance accumulated since the last accepted event in
the numerator; the source uses the configured step instead. -/
def avg_speed_claim (dist_since_last : ℚ) (last_point_time : Option ℚ) (t : ℚ) : ℚ :=
  match last_point_time with
  | none => 167/100
  | some t0 =>
    if t - t0 > 0 then dist_since_last / (t - t0)
    else VELOCIDAD_MAX_PARA_ESCALA

/-- Modelled from the spec: the point loop with the specification's speed
rule.  Identical to runAux except that the cumulative distance recorded at
the last accepted event is carried alongside the state and the event speed
is avg_speed_claim applied to the distance accumulated since then. -/
def runAuxSpecSpeed (cfg : Config) (geom : Geom) :
    GenState × ℚ → List (TrailPoint × TrailPoint) → GenState × ℚ
  | acc, [] => acc
  | (st, lastd), (p_prev, p_curr) :: rest =>
    if p_curr.elevation = none ∨ p_curr.time = none then runAuxSpecSpeed cfg geom (st, lastd) rest
    else if p_prev.time = none then runAuxSpecSpeed cfg geom (st, lastd) rest
    else
      let cd := st.current_distance + (cfg.dist3d p_curr p_prev).getD 0
      if st.next_note_distance ≤ cd then
        let st' := eventStepWith cfg geom st p_curr cd
          (avg_speed_claim (cd - lastd) st.last_point_time (p_curr.time.getD 0))
        if 600 ≤ st'.time then (st', cd) else runAuxSpecSpeed cfg geom (st', cd) rest
      else
        let st' := { st with current_distance := cd }
        if 600 ≤ st'.time then (st', lastd) else runAuxSpecSpeed cfg geom (st', lastd) rest

/-- Modelled from the spec: generate_midi_file with the specification's
speed rule, for comparison with the source's pipeline. -/
def generate_spec_speed (cfg : Config) (points : List TrailPoint) :
    Except String GenState :=
  match points.filterMap (fun p => p.elevation) with
  | [] => .error "El archivo GPX no contiene datos de elevación válidos."
  | e :: es =>
    let ele_min := es.foldl min e
    let ele_max := es.foldl max e
    let geom : Geom := ⟨ele_min, ele_max, ele_max - ele_min⟩
    .ok (runAuxSpecSpeed cfg geom (initState, 0) (pairsOf points)).1

/-- Modelled from the spec: cumulative distance summed only over consecutive
pairs in which BOTH points have elevation and timestamp defined, as claim C4
words the resampling rule. -/
def claim_cumulative_distance (dist3d : TrailPoint → TrailPoint → Option ℚ)
    (points : List TrailPoint) : ℚ :=
  (pairsOf points).foldl
    (fun acc pq =>
      if pq.1.elevation ≠ none ∧ pq.1.time ≠ none ∧ pq.2.elevation ≠ none ∧ pq.2.time ≠ none
      then acc + (dist3d pq.2 pq.1).getD 0
      else acc)
    0

/-! Concrete trails and configurations used by counterexamples and
witnesses.  Distances between concrete points are realized by the oracle
measuring the absolute latitude difference, which keeps every pairwise
distance an explicit rational. -/

/-- Shorthand for a concrete point at longitude 0. -/
def mkP (la : ℚ) (e t c : Option ℚ) : TrailPoint := ⟨la, 0, e, t, c⟩

/-- Default concrete configuration: 50 m step, tempo 120, the UI's default
source assignment (melody from elevation, duration from speed, bass from
cadence). -/
def cfgT : Config :=
  { distance_step_m := 50
    tempo := 120
    melody_source := .Altitud
    beat_source := .Ritmo
    bass_source := .Cadencia
    dist3d := fun p q => some |p.lat - q.lat| }

/-- Same configuration with an explicit distance step of zero. -/
def cfgZeroStep : Config := { cfgT with distance_step_m := 0 }

/-- Two full points 50 m and 10 s apart at constant elevation 100. -/
def ptsFlat2 : List TrailPoint :=
  [mkP 0 (some 100) (some 0) none, mkP 50 (some 100) (some 10) none]

/-- Three full points at constant elevation: one event at the second point,
then 100 m accumulated in 10 s before the third point's event. -/
def ptsSpeed3 : List TrailPoint :=
  [mkP 0 (some 100) (some 0) none, mkP 50 (some 100) (some 0) none,
   mkP 150 (some 100) (some 10) none]

/-- Three points whose middle point has a timestamp but no elevation. -/
def ptsSkipMid : List TrailPoint :=
  [mkP 0 (some 100) (some 0) none, mkP 10 none (some 5) none,
   mkP 40 (some 100) (some 10) none]

/-- Two points of which only the second has both elevation and timestamp. -/
def ptsOneFull : List TrailPoint :=
  [mkP 0 none (some 0) none, mkP 50 (some 100) (some 10) none]

/-- Two full points carrying a constant cadence sensor reading of 100. -/
def ptsCad2 : List TrailPoint :=
  [mkP 0 (some 100) (some 0) (some 100), mkP 50 (some 100) (some 10) (some 100)]

/-- A 302-point flat trail engineered to overshoot the 600 time ceiling:
points 0..299 lie 50 m and 100 s apart (every pair is an event of duration
2, reaching musical time 598 after 299 events), point 300 follows 20 s
later (speed 2.5 m/s, duration 1, time 599), and point 301 again 100 s
later (duration 2, time 601, at which point the loop breaks).  The constant
sensor cadence 60 keeps all intermediate rationals small. -/
def ptsLong : List TrailPoint :=
  ((List.range 300).map (fun i =>
      mkP (50 * (i : ℚ)) (some 100) (some (100 * (i : ℚ))) (some 60))) ++
    [mkP 15000 (some 100) (some 29920) (some 60),
     mkP 15050 (some 100) (some 30020) (some 60)]

section Proofs

attribute [local semireducible] Rat.add Rat.mul Rat.inv Rat.sub

/-! Lemmas about rounding and scale snapping (component ScaleMapper). -/

theorem roundHalfEven_nearest (q : ℚ) : |q - (roundHalfEven q : ℚ)| ≤ 1/2 := by
  have h0 : (⌊q⌋ : ℚ) ≤ q := Int.floor_le q
  have h1 : q < (⌊q⌋ : ℚ) + 1 := Int.lt_floor_add_one q
  unfold roundHalfEven
  split_ifs with ha hb hc
  · rw [abs_of_nonneg (by linarith)]
    linarith
  · rw [abs_of_nonpos (by push_cast; linarith)]
    push_cast
    linarith
  · rw [abs_of_nonneg (by linarith)]
    linarith
  · rw [abs_of_nonpos (by push_cast; linarith)]
    push_cast
    linarith

theorem snapLoop_snd_mem (r : ℤ) : ∀ (l : List ℤ) (m c : ℤ),
    (snapLoop r l (m, c)).2 = c ∨ (snapLoop r l (m, c)).2 ∈ l := by
  intro l
  induction l with
  | nil => intro m c; left; rfl
  | cons s rest ih =>
    intro m c
    simp only [snapLoop]
    split
    · rcases ih |r - s| s with h1 | h1
      · right
        simp [h1]
      · right
        simp [h1]
    · rcases ih m c with h1 | h1
      · left
        exact h1
      · right
        simp [h1]

theorem snap_residue_spec (r : ℤ) (hr0 : 0 ≤ r) (hr1 : r < 12) :
    (snapLoop r PENTATONIC_SCALE (12, 0)).2 ∈ PENTATONIC_SCALE ∧
    (∀ s ∈ PENTATONIC_SCALE, |r - (snapLoop r PENTATONIC_SCALE (12, 0)).2| ≤ |r - s|) ∧
    (∀ s ∈ PENTATONIC_SCALE, |r - s| = |r - (snapLoop r PENTATONIC_SCALE (12, 0)).2| →
      (snapLoop r PENTATONIC_SCALE (12, 0)).2 ≤ s) := by
  interval_cases r <;> decide

theorem snapLoop_bounds (r : ℤ) :
    0 ≤ (snapLoop r PENTATONIC_SCALE (12, 0)).2 ∧ (snapLoop r PENTATONIC_SCALE (12, 0)).2 < 12 := by
  have h := snapLoop_snd_mem r PENTATONIC_SCALE 12 0
  simp only [PENTATONIC_SCALE, List.mem_cons, List.mem_singleton,
    List.not_mem_nil, or_false] at h ⊢
  rcases h with h | h | h | h | h | h <;> rw [h] <;> norm_num

/-- Claim C5: snap_to_scale rounds its input to a nearest integer, splits it
into octave and in-octave residue, replaces the residue by the nearest
member of the pentatonic scale with ties resolved toward the member scanned
first (the smallest), recomposes as octave times 12 plus the snapped
residue, and the result's in-octave residue is always a scale member. -/
theorem c5_scale_snapping (pitch : ℚ) :
    |pitch - (roundHalfEven pitch : ℚ)| ≤ 1/2 ∧
    snap_to_scale pitch =
      Int.ediv (roundHalfEven pitch) 12 * 12 +
        (snapLoop (Int.emod (roundHalfEven pitch) 12) PENTATONIC_SCALE (12, 0)).2 ∧
    (snapLoop (Int.emod (roundHalfEven pitch) 12) PENTATONIC_SCALE (12, 0)).2 ∈ PENTATONIC_SCALE ∧
    (∀ s ∈ PENTATONIC_SCALE,
      |Int.emod (roundHalfEven pitch) 12 -
          (snapLoop (Int.emod (roundHalfEven pitch) 12) PENTATONIC_SCALE (12, 0)).2| ≤
        |Int.emod (roundHalfEven pitch) 12 - s|) ∧
    (∀ s ∈ PENTATONIC_SCALE,
      |Int.emod (roundHalfEven pitch) 12 - s| =
        |Int.emod (roundHalfEven pitch) 12 -
          (snapLoop (Int.emod (roundHalfEven pitch) 12) PENTATONIC_SCALE (12, 0)).2| →
      (snapLoop (Int.emod (roundHalfEven pitch) 12) PENTATONIC_SCALE (12, 0)).2 ≤ s) ∧
    Int.emod (snap_to_scale pitch) 12 ∈ PENTATONIC_SCALE := by
  have hm0 : 0 ≤ Int.emod (roundHalfEven pitch) 12 :=
    Int.emod_nonneg _ (by norm_num)
  have hm1 : Int.emod (roundHalfEven pitch) 12 < 12 :=
    Int.emod_lt_of_pos _ (by norm_num)
  obtain ⟨hmem, hnear, htie⟩ := snap_residue_spec _ hm0 hm1
  obtain ⟨hc0, hc1⟩ := snapLoop_bounds (Int.emod (roundHalfEven pitch) 12)
  refine ⟨roundHalfEven_nearest pitch, rfl, hmem, hnear, htie, ?_⟩
  have hsnap : Int.emod (snap_to_scale pitch) 12 =
      (snapLoop (Int.emod (roundHalfEven pitch) 12) PENTATONIC_SCALE (12, 0)).2 := by
    show Int.emod (Int.ediv (roundHalfEven pitch) 12 * 12 +
      (snapLoop (Int.emod (roundHalfEven pitch) 12) PENTATONIC_SCALE (12, 0)).2) 12 = _
    generalize (snapLoop (Int.emod (roundHalfEven pitch) 12) PENTATONIC_SCALE (12, 0)).2 = b at hc0 hc1 ⊢
    generalize Int.ediv (roundHalfEven pitch) 12 = k
    show (k * 12 + b) % 12 = b
    omega
  rw [hsnap]
  exact hmem

/-- Witness for C5 at the tied residue 3 (equidistant from scale members 2
and 4): the lower member 2 wins, and the snapped pitch is 2. -/
theorem c5_witness :
    snap_to_scale 3 = 2 ∧
    |Int.emod (roundHalfEven 3) 12 -
        (snapLoop (Int.emod (roundHalfEven 3) 12) PENTATONIC_SCALE (12, 0)).2| ≤
      |Int.emod (roundHalfEven 3) 12 - 4| :=
  ⟨by decide, (c5_scale_snapping 3).2.2.2.1 4 (by decide)⟩

/-! Lemmas about feature scaling and cadence smoothing. -/

theorem clamp01_nonneg (x : ℚ) : 0 ≤ clamp01 x := le_max_left 0 _

theorem clamp01_le_one (x : ℚ) : clamp01 x ≤ 1 :=
  max_le (by norm_num) (min_le_left 1 x)

theorem clamp01_of_bounds (x : ℚ) (h0 : 0 ≤ x) (h1 : x ≤ 1) : clamp01 x = x := by
  unfold clamp01
  rw [min_eq_right h1, max_eq_right h0]

theorem cadencia_bounds (p : TrailPoint) (v : ℚ) (g : Geom) :
    0 ≤ (get_mapping_values p v g).cadencia ∧ (get_mapping_values p v g).cadencia ≤ 1 :=
  ⟨clamp01_nonneg _, clamp01_le_one _⟩

theorem ritmo_bounds (p : TrailPoint) (v : ℚ) (g : Geom) :
    0 ≤ (get_mapping_values p v g).ritmo ∧ (get_mapping_values p v g).ritmo ≤ 1 :=
  ⟨clamp01_nonneg _, clamp01_le_one _⟩

theorem altitud_bounds (p : TrailPoint) (v : ℚ) (g : Geom) :
    0 ≤ (get_mapping_values p v g).altitud ∧ (get_mapping_values p v g).altitud ≤ 1 :=
  ⟨clamp01_nonneg _, clamp01_le_one _⟩

theorem raw_cadence_of_bounds (s : MappingValues) (h0 : 0 ≤ s.cadencia) (h1 : s.cadencia ≤ 1) :
    MIN_CADENCE ≤ raw_cadence_of s ∧ raw_cadence_of s ≤ MAX_CADENCE := by
  unfold raw_cadence_of MIN_CADENCE MAX_CADENCE
  constructor <;> nlinarith

theorem smooth_update_bounds (n s r : ℚ) (hs0 : MIN_CADENCE ≤ s) (hs1 : s ≤ MAX_CADENCE)
    (hr0 : MIN_CADENCE ≤ r) (hr1 : r ≤ MAX_CADENCE) :
    MIN_CADENCE ≤ smooth_update n s r ∧ smooth_update n s r ≤ MAX_CADENCE := by
  unfold smooth_update EMA_ALPHA
  simp only [MIN_CADENCE, MAX_CADENCE] at hs0 hs1 hr0 hr1 ⊢
  split_ifs
  · exact ⟨hr0, hr1⟩
  · constructor <;> nlinarith

theorem eventStepWith_melodia (cfg : Config) (geom : Geom) (st : GenState)
    (p : TrailPoint) (cd v : ℚ) :
    (eventStepWith cfg geom st p cd v).melodia =
      st.melodia ++
        [⟨snap_to_scale (pitch_base +
            (get_mapping_values p v geom).get cfg.melody_source * RANGO_NOTAS_MELODIA),
          st.time,
          max (1/4) (quantize_duration ((get_mapping_values p v geom).get cfg.beat_source) * (9/10)),
          100⟩] := rfl

theorem eventStepWith_bajos (cfg : Config) (geom : Geom) (st : GenState)
    (p : TrailPoint) (cd v : ℚ) :
    (eventStepWith cfg geom st p cd v).bajos =
      st.bajos ++
        [⟨MIN_PITCH_BAJO + roundHalfEven ((get_mapping_values p v geom).get cfg.bass_source *
            ((MAX_PITCH_BAJO - MIN_PITCH_BAJO : ℤ) : ℚ)),
          st.time,
          max (1/4) (quantize_duration ((get_mapping_values p v geom).get cfg.beat_source) * (9/10)),
          90⟩] := rfl

theorem eventStepWith_percusion (cfg : Config) (geom : Geom) (st : GenState)
    (p : TrailPoint) (cd v : ℚ) :
    (eventStepWith cfg geom st p cd v).percusion =
      st.percusion ++
        percPulses st.time
          (bdm_of cfg.tempo (smooth_update st.next_note_distance st.smoothed_cadence
            (raw_cadence_of (get_mapping_values p v geom))))
          ((⌊quantize_duration ((get_mapping_values p v geom).get cfg.beat_source) /
              bdm_of cfg.tempo (smooth_update st.next_note_distance st.smoothed_cadence
                (raw_cadence_of (get_mapping_values p v geom)))⌋).toNat)
          (get_mapping_values p v geom).ritmo v := rfl

theorem eventStepWith_time (cfg : Config) (geom : Geom) (st : GenState)
    (p : TrailPoint) (cd v : ℚ) :
    (eventStepWith cfg geom st p cd v).time =
      st.time + quantize_duration ((get_mapping_values p v geom).get cfg.beat_source) := rfl

theorem eventStepWith_next (cfg : Config) (geom : Geom) (st : GenState)
    (p : TrailPoint) (cd v : ℚ) :
    (eventStepWith cfg geom st p cd v).next_note_distance =
      st.next_note_distance + cfg.distance_step_m := rfl

theorem eventStepWith_last (cfg : Config) (geom : Geom) (st : GenState)
    (p : TrailPoint) (cd v : ℚ) :
    (eventStepWith cfg geom st p cd v).last_point_time = some (p.time.getD 0) := rfl

theorem eventStepWith_current (cfg : Config) (geom : Geom) (st : GenState)
    (p : TrailPoint) (cd v : ℚ) :
    (eventStepWith cfg geom st p cd v).current_distance = cd := rfl

theorem eventStepWith_smoothed (cfg : Config) (geom : Geom) (st : GenState)
    (p : TrailPoint) (cd v : ℚ) :
    (eventStepWith cfg geom st p cd v).smoothed_cadence =
      smooth_update st.next_note_distance st.smoothed_cadence
        (raw_cadence_of (get_mapping_values p v geom)) := rfl

theorem procPair_smoothed_bounds (cfg : Config) (geom : Geom) (st : GenState)
    (p q : TrailPoint) (h0 : MIN_CADENCE ≤ st.smoothed_cadence)
    (h1 : st.smoothed_cadence ≤ MAX_CADENCE) :
    MIN_CADENCE ≤ (procPair cfg geom st p q).smoothed_cadence ∧
      (procPair cfg geom st p q).smoothed_cadence ≤ MAX_CADENCE := by
  simp only [procPair]
  split
  · rw [eventStep, eventStepWith_smoothed]
    obtain ⟨hc0, hc1⟩ := cadencia_bounds q
      (avg_speed_calc cfg.distance_step_m st.last_point_time (q.time.getD 0)) geom
    obtain ⟨hr0, hr1⟩ := raw_cadence_of_bounds _ hc0 hc1
    exact smooth_update_bounds _ _ _ h0 h1 hr0 hr1
  · exact ⟨h0, h1⟩

theorem runAux_smoothed_bounds (cfg : Config) (geom : Geom) :
    ∀ (pairs : List (TrailPoint × TrailPoint)) (st : GenState),
      MIN_CADENCE ≤ st.smoothed_cadence → st.smoothed_cadence ≤ MAX_CADENCE →
      MIN_CADENCE ≤ (runAux cfg geom st pairs).smoothed_cadence ∧
        (runAux cfg geom st pairs).smoothed_cadence ≤ MAX_CADENCE := by
  intro pairs
  induction pairs with
  | nil => intro st h0 h1; exact ⟨h0, h1⟩
  | cons pq rest ih =>
    intro st h0 h1
    obtain ⟨p, q⟩ := pq
    simp only [runAux]
    split
    · exact ih st h0 h1
    · split
      · exact ih st h0 h1
      · obtain ⟨h0', h1'⟩ := procPair_smoothed_bounds cfg geom st p q h0 h1
        split
        · exact ⟨h0', h1'⟩
        · exact ih _ h0' h1'

/-- Claim C9: the smoothed cadence starts at MIN_CADENCE and stays within
the clamp interval MIN_CADENCE..MAX_CADENCE across every iteration of the
resample loop, because the raw cadence is clamped into that interval and
the exponential moving average of two values of the interval stays inside
it. -/
theorem c9_smoothed_cadence_in_range :
    initState.smoothed_cadence = MIN_CADENCE ∧
    ∀ (cfg : Config) (geom : Geom) (st : GenState) (pairs : List (TrailPoint × TrailPoint)),
      MIN_CADENCE ≤ st.smoothed_cadence → st.smoothed_cadence ≤ MAX_CADENCE →
      MIN_CADENCE ≤ (runAux cfg geom st pairs).smoothed_cadence ∧
        (runAux cfg geom st pairs).smoothed_cadence ≤ MAX_CADENCE :=
  ⟨rfl, fun cfg geom st pairs h0 h1 => runAux_smoothed_bounds cfg geom pairs st h0 h1⟩

/-- Witness for C9 on a concrete run. -/
theorem c9_witness :
    MIN_CADENCE ≤ (runAux cfgT ⟨100, 100, 0⟩ initState (pairsOf ptsFlat2)).smoothed_cadence ∧
      (runAux cfgT ⟨100, 100, 0⟩ initState (pairsOf ptsFlat2)).smoothed_cadence ≤ MAX_CADENCE :=
  c9_smoothed_cadence_in_range.2 cfgT ⟨100, 100, 0⟩ initState (pairsOf ptsFlat2)
    (by norm_num [initState, MIN_CADENCE]) (by norm_num [initState, MIN_CADENCE, MAX_CADENCE])

/-! Lemmas for constant-cadence smoothing (claim C7). -/

theorem raw_cadence_of_sensor (p : TrailPoint) (v : ℚ) (g : Geom) (c : ℚ)
    (hc : p.cadence = some c) (h0 : MIN_CADENCE ≤ c) (h1 : c ≤ MAX_CADENCE) :
    raw_cadence_of (get_mapping_values p v g) = c := by
  simp only [MIN_CADENCE, MAX_CADENCE] at h0 h1
  have hcad : (get_mapping_values p v g).cadencia = (c - 60) / 140 := by
    simp only [get_mapping_values, hc]
    simp only [MIN_CADENCE, MAX_CADENCE]
    norm_num
    exact clamp01_of_bounds _ (div_nonneg (by linarith) (by norm_num))
      (by rw [div_le_one (by norm_num)]; linarith)
  unfold raw_cadence_of
  rw [hcad]
  simp only [MIN_CADENCE, MAX_CADENCE]
  field_simp
  ring

theorem procPair_const_cadence (cfg : Config) (geom : Geom) (st : GenState)
    (p q : TrailPoint) (c : ℚ) (hc : q.cadence = some c)
    (h0 : MIN_CADENCE ≤ c) (h1 : c ≤ MAX_CADENCE)
    (ha : st.melodia = [] → st.next_note_distance = 0)
    (hb : st.melodia ≠ [] → st.smoothed_cadence = c) :
    ((procPair cfg geom st p q).melodia = [] → (procPair cfg geom st p q).next_note_distance = 0) ∧
    ((procPair cfg geom st p q).melodia ≠ [] → (procPair cfg geom st p q).smoothed_cadence = c) := by
  simp only [procPair]
  split
  · constructor
    · intro hmel
      rw [eventStep, eventStepWith_melodia] at hmel
      simp at hmel
    · intro _
      rw [eventStep, eventStepWith_smoothed,
        raw_cadence_of_sensor q _ geom c hc h0 h1]
      unfold smooth_update
      split_ifs with hz
      · rfl
      · rcases List.eq_nil_or_concat st.melodia with hnil | hcons
        · exact absurd (ha hnil) hz
        · have hne : st.melodia ≠ [] := by
            obtain ⟨l2, x, hx⟩ := hcons
            simp [hx]
          rw [hb hne]
          unfold EMA_ALPHA
          ring
  · exact ⟨ha, hb⟩

/-- Claim C7: when every point carries the same in-range sensor cadence c,
the smoothing state equals c from the first accepted event onward; the
first event initializes the state with the raw cadence and the exponential
moving average preserves the constant afterwards. -/
theorem c7_constant_cadence_preserved (c : ℚ) (h0 : MIN_CADENCE ≤ c) (h1 : c ≤ MAX_CADENCE)
    (cfg : Config) (geom : Geom) :
    ((initState.melodia = [] → initState.next_note_distance = 0) ∧
      (initState.melodia ≠ [] → initState.smoothed_cadence = c)) ∧
    ∀ (pairs : List (TrailPoint × TrailPoint)) (st : GenState),
      (∀ pq ∈ pairs, pq.2.cadence = some c) →
      (st.melodia = [] → st.next_note_distance = 0) →
      (st.melodia ≠ [] → st.smoothed_cadence = c) →
      ((runAux cfg geom st pairs).melodia = [] →
        (runAux cfg geom st pairs).next_note_distance = 0) ∧
      ((runAux cfg geom st pairs).melodia ≠ [] →
        (runAux cfg geom st pairs).smoothed_cadence = c) := by
  refine ⟨⟨fun _ => rfl, fun h => absurd rfl h⟩, ?_⟩
  intro pairs
  induction pairs with
  | nil => intro st _ ha hb; exact ⟨ha, hb⟩
  | cons pq rest ih =>
    intro st hcad ha hb
    obtain ⟨p, q⟩ := pq
    have hq : q.cadence = some c := hcad (p, q) (List.mem_cons_self _ _)
    have hrest : ∀ pq ∈ rest, pq.2.cadence = some c :=
      fun x hx => hcad x (List.mem_cons_of_mem _ hx)
    simp only [runAux]
    split
    · exact ih st hrest ha hb
    · split
      · exact ih st hrest ha hb
      · obtain ⟨ha', hb'⟩ := procPair_const_cadence cfg geom st p q c hq h0 h1 ha hb
        split
        · exact ⟨ha', hb'⟩
        · exact ih _ hrest ha' hb'

/-- Witness for C7: a concrete two-point trail with constant sensor cadence
100 ends with smoothing state exactly 100. -/
theorem c7_witness :
    (runAux cfgT ⟨100, 100, 0⟩ initState (pairsOf ptsCad2)).smoothed_cadence = 100 :=
  ((c7_constant_cadence_preserved 100 (by norm_num [MIN_CADENCE]) (by norm_num [MAX_CADENCE])
      cfgT ⟨100, 100, 0⟩).2 (pairsOf ptsCad2) initState (by decide)
    (fun _ => rfl) (fun h => absurd rfl h)).2 (by decide)

/-! Lemmas about the musical-time cursor (claims C3 and C6). -/

theorem quantize_duration_cases (b : ℚ) :
    quantize_duration b = 1/4 ∨ quantize_duration b = 1/2 ∨
      quantize_duration b = 1 ∨ quantize_duration b = 2 := by
  unfold quantize_duration
  split_ifs <;> simp

theorem quantize_duration_bounds (b : ℚ) :
    1/4 ≤ quantize_duration b ∧ quantize_duration b ≤ 2 := by
  rcases quantize_duration_cases b with h | h | h | h <;> rw [h] <;> norm_num

theorem note_duration_le (d : ℚ) (h : 1/4 ≤ d) : max (1/4) (d * (9/10)) ≤ d :=
  max_le h (by nlinarith)

theorem procPair_time_cases (cfg : Config) (geom : Geom) (st : GenState)
    (p q : TrailPoint) :
    ((procPair cfg geom st p q).time = st.time ∧
      (procPair cfg geom st p q).melodia = st.melodia) ∨
    ∃ d, (d = 1/4 ∨ d = 1/2 ∨ d = 1 ∨ d = 2) ∧
      (procPair cfg geom st p q).time = st.time + d ∧
      (procPair cfg geom st p q).melodia.map Note.duration =
        (st.melodia.map Note.duration) ++ [max (1/4) (d * (9/10))] := by
  simp only [procPair]
  split
  · right
    refine ⟨quantize_duration ((get_mapping_values q
        (avg_speed_calc cfg.distance_step_m st.last_point_time (q.time.getD 0)) geom).get
        cfg.beat_source), quantize_duration_cases _, ?_, ?_⟩
    · rw [eventStep, eventStepWith_time]
    · rw [eventStep, eventStepWith_melodia]
      simp
  · exact Or.inl ⟨rfl, rfl⟩

theorem procPair_time_le (cfg : Config) (geom : Geom) (st : GenState) (p q : TrailPoint) :
    st.time ≤ (procPair cfg geom st p q).time ∧
      (procPair cfg geom st p q).time ≤ st.time + 2 := by
  rcases procPair_time_cases cfg geom st p q with ⟨h, _⟩ | ⟨d, hd, h, _⟩
  · rw [h]
    constructor <;> linarith
  · rw [h]
    rcases hd with hd | hd | hd | hd <;> rw [hd] <;> constructor <;> linarith

theorem runAux_time_mono (cfg : Config) (geom : Geom) :
    ∀ (pairs : List (TrailPoint × TrailPoint)) (st : GenState),
      st.time ≤ (runAux cfg geom st pairs).time := by
  intro pairs
  induction pairs with
  | nil => intro st; exact le_refl _
  | cons pq rest ih =>
    intro st
    obtain ⟨p, q⟩ := pq
    simp only [runAux]
    split
    · exact ih st
    · split
      · exact ih st
      · have h1 := (procPair_time_le cfg geom st p q).1
        split
        · exact h1
        · exact le_trans h1 (ih _)

theorem runAux_time_ceiling (cfg : Config) (geom : Geom) :
    ∀ (pairs : List (TrailPoint × TrailPoint)) (st : GenState),
      st.time < 600 → (runAux cfg geom st pairs).time < 602 := by
  intro pairs
  induction pairs with
  | nil => intro st h; simp only [runAux]; linarith
  | cons pq rest ih =>
    intro st h
    obtain ⟨p, q⟩ := pq
    simp only [runAux]
    split
    · exact ih st h
    · split
      · exact ih st h
      · have h2 := (procPair_time_le cfg geom st p q).2
        split
        · linarith
        · rename_i hbreak
          push_neg at hbreak
          exact ih _ hbreak

/-- Claim C3, corrected: the musical-time cursor is non-decreasing across
the whole run, each accepted event advances it by exactly that event's
quantized duration value d (the emitted note itself carries duration
max(0.25, 0.9 d), which differs from d for d > 0.25), and the final time is
below 602: the 600 ceiling is only checked after an event, so the last
event may overshoot it by less than one duration (at most 2). -/
theorem c3_time_cursor_amended :
    (∀ (cfg : Config) (geom : Geom) (pairs : List (TrailPoint × TrailPoint)) (st : GenState),
      st.time ≤ (runAux cfg geom st pairs).time) ∧
    (∀ (cfg : Config) (geom : Geom) (st : GenState) (p q : TrailPoint),
      ((procPair cfg geom st p q).time = st.time ∧
        (procPair cfg geom st p q).melodia = st.melodia) ∨
      ∃ d, (d = 1/4 ∨ d = 1/2 ∨ d = 1 ∨ d = 2) ∧
        (procPair cfg geom st p q).time = st.time + d ∧
        (procPair cfg geom st p q).melodia.map Note.duration =
          (st.melodia.map Note.duration) ++ [max (1/4) (d * (9/10))]) ∧
    (∀ (cfg : Config) (geom : Geom) (pairs : List (TrailPoint × TrailPoint)) (st : GenState),
      st.time < 600 → (runAux cfg geom st pairs).time < 602) :=
  ⟨fun cfg geom pairs st => runAux_time_mono cfg geom pairs st,
   fun cfg geom st p q => procPair_time_cases cfg geom st p q,
   fun cfg geom pairs st h => runAux_time_ceiling cfg geom pairs st h⟩

set_option maxRecDepth 100000 in
set_option maxHeartbeats 2000000 in
/-- Counterexample to C3 as stated, exhibiting both failures on one
concrete trail: the run on ptsLong (301 accepted events, all points with
timestamps and elevation) ends at musical time 601, above the 600 ceiling,
because the ceiling is only checked after the increment; and the emitted
melody notes' stored durations sum to 540.9, not 601, so the cursor does
not increase by the emitted notes' durations either. -/
theorem c3_counterexample :
    (okStateOf (generate_midi_file cfgT ptsLong)).time = 601 ∧
    ¬ (okStateOf (generate_midi_file cfgT ptsLong)).time ≤ 600 ∧
    ((okStateOf (generate_midi_file cfgT ptsLong)).melodia.map Note.duration).sum = 5409/10 ∧
    (601 : ℚ) ≠ 5409/10 := by
  have hx : (okStateOf (generate_midi_file cfgT ptsLong)).time = 601 := by decide
  refine ⟨hx, ?_, by decide, by norm_num⟩
  rw [hx]
  norm_num

/-- Witness for the amended C3 on a concrete run. -/
theorem c3_witness :
    initState.time ≤ (runAux cfgT ⟨100, 100, 0⟩ initState (pairsOf ptsFlat2)).time ∧
    (runAux cfgT ⟨100, 100, 0⟩ initState (pairsOf ptsFlat2)).time < 602 :=
  ⟨c3_time_cursor_amended.1 cfgT ⟨100, 100, 0⟩ (pairsOf ptsFlat2) initState,
   c3_time_cursor_amended.2.2 cfgT ⟨100, 100, 0⟩ (pairsOf ptsFlat2) initState
     (by norm_num [initState])⟩

/-! Track ordering invariant (claim C6): within each track, note starts are
non-decreasing and every note ends no later than the next one starts. -/

/-- Ordering relation between two notes of the same track: the second starts
no earlier than the first starts and no earlier than the first ends. -/
def noteRel (a b : Note) : Prop :=
  a.start ≤ b.start ∧ a.start + a.duration ≤ b.start

/-- Well-formedness of one track relative to the current cursor position t:
all notes lie in [0, t] with positive duration, and the track is pairwise
ordered without overlap. -/
def trackOk (t : ℚ) (l : List Note) : Prop :=
  (∀ n ∈ l, 0 ≤ n.start ∧ 0 < n.duration ∧ n.start + n.duration ≤ t) ∧
  List.Pairwise noteRel l

/-- Loop invariant of generate_midi_file used for claims C6: nonnegative
cursor, clamped smoothing state, and well-formed tracks. -/
def Inv (st : GenState) : Prop :=
  0 ≤ st.time ∧ MIN_CADENCE ≤ st.smoothed_cadence ∧ st.smoothed_cadence ≤ MAX_CADENCE ∧
  trackOk st.time st.melodia ∧ trackOk st.time st.bajos ∧ trackOk st.time st.percusion

theorem trackOk_nil (t : ℚ) : trackOk t [] :=
  ⟨by simp, List.Pairwise.nil⟩

theorem trackOk_append (t d : ℚ) (l ps : List Note) (ht0 : 0 ≤ t)
    (hk : trackOk t l) (hd : 0 ≤ d)
    (hs : ∀ n ∈ ps, t ≤ n.start ∧ 0 < n.duration ∧ n.start + n.duration ≤ t + d)
    (hp : List.Pairwise noteRel ps) : trackOk (t + d) (l ++ ps) := by
  constructor
  · intro n hn
    rcases List.mem_append.1 hn with h | h
    · obtain ⟨h1, h2, h3⟩ := hk.1 n h
      exact ⟨h1, h2, by linarith⟩
    · obtain ⟨h1, h2, h3⟩ := hs n h
      exact ⟨by linarith, h2, h3⟩
  · rw [List.pairwise_append]
    refine ⟨hk.2, hp, ?_⟩
    intro a ha b hb
    obtain ⟨_, hda, hea⟩ := hk.1 a ha
    obtain ⟨hbs, _, _⟩ := hs b hb
    exact ⟨by linarith, by linarith⟩

theorem percPulseAt_shape (t bdm rs v : ℚ) (j : ℕ) (b : Note)
    (h : percPulseAt t bdm rs v j = some b) :
    b.start = t + (j : ℚ) * bdm ∧ b.duration = 1/10 := by
  unfold percPulseAt at h
  split_ifs at h <;> simp only [Option.some.injEq] at h <;> try subst h
  · exact ⟨rfl, rfl⟩
  · exact ⟨rfl, rfl⟩

theorem pulse_index_bound (d bdm : ℚ) (hb : 0 < bdm) (j : ℕ)
    (hj : j < (⌊d / bdm⌋).toNat) : (j : ℚ) * bdm + bdm ≤ d := by
  have hz : (j : ℤ) + 1 ≤ ⌊d / bdm⌋ := by omega
  have hzq : ((j : ℚ) + 1) ≤ ((⌊d / bdm⌋ : ℤ) : ℚ) := by exact_mod_cast hz
  have hfl : ((⌊d / bdm⌋ : ℤ) : ℚ) ≤ d / bdm := Int.floor_le _
  have hle : (j : ℚ) + 1 ≤ d / bdm := le_trans hzq hfl
  have hmul := (le_div_iff₀ hb).1 hle
  have hx : ((j : ℚ) + 1) * bdm = (j : ℚ) * bdm + bdm := by ring
  linarith [hmul, hx.symm.le, hx.le]

theorem percPulses_pairwise (t bdm rs v : ℚ) (np : ℕ) (hd10 : 1/10 ≤ bdm) :
    List.Pairwise noteRel (percPulses t bdm np rs v) := by
  unfold percPulses
  rw [List.pairwise_filterMap]
  apply (List.pairwise_lt_range np).imp
  intro j j' hjj b hb b' hb'
  obtain ⟨hs1, hd1⟩ := percPulseAt_shape t bdm rs v j b (Option.mem_def.1 hb)
  obtain ⟨hs2, hd2⟩ := percPulseAt_shape t bdm rs v j' b' (Option.mem_def.1 hb')
  have hbpos : (0:ℚ) < bdm := by linarith
  have hj1 : (j : ℚ) + 1 ≤ (j' : ℚ) := by exact_mod_cast hjj
  have key : 0 ≤ ((j' : ℚ) - (j : ℚ) - 1) * bdm :=
    mul_nonneg (by linarith) (by linarith)
  have key2 : ((j' : ℚ) - (j : ℚ) - 1) * bdm =
      (j' : ℚ) * bdm - (j : ℚ) * bdm - bdm := by ring
  constructor
  · rw [hs1, hs2]
    linarith [key, key2]
  · rw [hs1, hs2, hd1]
    linarith [key, key2]

theorem bdm_of_bounds (tempo s : ℚ) (ht : 60 ≤ tempo)
    (h0 : MIN_CADENCE ≤ s) (h1 : s ≤ MAX_CADENCE) : 3/20 ≤ bdm_of tempo s := by
  simp only [MIN_CADENCE, MAX_CADENCE] at h0 h1
  unfold bdm_of
  have hs2 : (0:ℚ) < s * 2 := by linarith
  rw [if_pos hs2]
  have heq : (60 / (s * 2)) * (tempo / 60) = tempo / (s * 2) := by
    field_simp
    ring
  rw [heq, le_div_iff₀ hs2]
  linarith

theorem eventStepWith_inv (cfg : Config) (geom : Geom) (st : GenState)
    (p : TrailPoint) (cd v : ℚ) (ht : 60 ≤ cfg.tempo) (hinv : Inv st) :
    Inv (eventStepWith cfg geom st p cd v) := by
  obtain ⟨htime, hs0, hs1, hmel, hbaj, hperc⟩ := hinv
  obtain ⟨hc0, hc1⟩ := cadencia_bounds p v geom
  obtain ⟨hr0, hr1⟩ := raw_cadence_of_bounds _ hc0 hc1
  obtain ⟨hm0, hm1⟩ := smooth_update_bounds st.next_note_distance st.smoothed_cadence
    (raw_cadence_of (get_mapping_values p v geom)) hs0 hs1 hr0 hr1
  obtain ⟨hd14, hd2⟩ := quantize_duration_bounds
    ((get_mapping_values p v geom).get cfg.beat_source)
  have hdpos : (0:ℚ) < quantize_duration ((get_mapping_values p v geom).get cfg.beat_source) := by
    linarith
  have hnd14 : (1:ℚ)/4 ≤ max (1/4)
      (quantize_duration ((get_mapping_values p v geom).get cfg.beat_source) * (9/10)) :=
    le_max_left _ _
  have hndle := note_duration_le _ hd14
  have hB320 := bdm_of_bounds cfg.tempo
    (smooth_update st.next_note_distance st.smoothed_cadence
      (raw_cadence_of (get_mapping_values p v geom))) ht hm0 hm1
  have hB10 : (1:ℚ)/10 ≤ bdm_of cfg.tempo
      (smooth_update st.next_note_distance st.smoothed_cadence
        (raw_cadence_of (get_mapping_values p v geom))) := by linarith
  have hBpos : (0:ℚ) < bdm_of cfg.tempo
      (smooth_update st.next_note_distance st.smoothed_cadence
        (raw_cadence_of (get_mapping_values p v geom))) := by linarith
  refine ⟨?_, ?_, ?_, ?_, ?_, ?_⟩
  · rw [eventStepWith_time]
    linarith
  · rw [eventStepWith_smoothed]
    exact hm0
  · rw [eventStepWith_smoothed]
    exact hm1
  · rw [eventStepWith_melodia, eventStepWith_time]
    apply trackOk_append _ _ _ _ htime hmel (by linarith)
    · intro n hn
      simp only [List.mem_singleton] at hn
      subst hn
      exact ⟨le_refl _, by linarith, by simpa using add_le_add_left hndle st.time⟩
    · simp [List.pairwise_singleton]
  · rw [eventStepWith_bajos, eventStepWith_time]
    apply trackOk_append _ _ _ _ htime hbaj (by linarith)
    · intro n hn
      simp only [List.mem_singleton] at hn
      subst hn
      exact ⟨le_refl _, by linarith, by simpa using add_le_add_left hndle st.time⟩
    · simp [List.pairwise_singleton]
  · rw [eventStepWith_percusion, eventStepWith_time]
    apply trackOk_append _ _ _ _ htime hperc (by linarith)
    · intro n hn
      unfold percPulses at hn
      obtain ⟨j, hj, heq⟩ := List.mem_filterMap.1 hn
      rw [List.mem_range] at hj
      obtain ⟨hstart, hdur⟩ := percPulseAt_shape _ _ _ _ _ _ heq
      have hjb : (0:ℚ) ≤ (j : ℚ) * bdm_of cfg.tempo
          (smooth_update st.next_note_distance st.smoothed_cadence
            (raw_cadence_of (get_mapping_values p v geom))) :=
        mul_nonneg (by positivity) (by linarith)
      have hbound := pulse_index_bound _ _ hBpos j hj
      refine ⟨by rw [hstart]; linarith, by rw [hdur]; norm_num, ?_⟩
      rw [hstart, hdur]
      linarith
    · exact percPulses_pairwise _ _ _ _ _ hB10

theorem procPair_inv (cfg : Config) (geom : Geom) (st : GenState) (p q : TrailPoint)
    (ht : 60 ≤ cfg.tempo) (hinv : Inv st) : Inv (procPair cfg geom st p q) := by
  simp only [procPair]
  split
  · exact eventStepWith_inv cfg geom st q _ _ ht hinv
  · exact hinv

theorem runAux_inv (cfg : Config) (geom : Geom) (ht : 60 ≤ cfg.tempo) :
    ∀ (pairs : List (TrailPoint × TrailPoint)) (st : GenState),
      Inv st → Inv (runAux cfg geom st pairs) := by
  intro pairs
  induction pairs with
  | nil => intro st h; exact h
  | cons pq rest ih =>
    intro st h
    obtain ⟨p, q⟩ := pq
    simp only [runAux]
    split
    · exact ih st h
    · split
      · exact ih st h
      · have h' := procPair_inv cfg geom st p q ht h
        split
        · exact h'
        · exact ih _ h'

theorem initState_inv : Inv initState := by
  refine ⟨le_refl 0, ?_, ?_, trackOk_nil 0, trackOk_nil 0, trackOk_nil 0⟩
  · simp [initState, MIN_CADENCE]
  · simp [initState, MIN_CADENCE, MAX_CADENCE]
    norm_num

/-- Counterexample to C6 as stated: on a concrete run the cursor ends at 2
having processed exactly one event, while the emitted melody and bass
notes carry duration 1.8 — starting from 0 the cursor did not advance by
the emitted note's duration. -/
theorem c6_counterexample :
    (okStateOf (generate_midi_file cfgT ptsFlat2)).melodia.map Note.duration = [9/5] ∧
    (okStateOf (generate_midi_file cfgT ptsFlat2)).bajos.map Note.duration = [9/5] ∧
    (okStateOf (generate_midi_file cfgT ptsFlat2)).time = 2 ∧
    (0 : ℚ) + 9/5 ≠ 2 :=
  ⟨by decide, by decide, by decide, by norm_num⟩

/-- Claim C6, corrected: in every score produced by the pipeline (the
app's slider keeps the tempo in 60..180, whence the tempo hypothesis),
each track's notes have non-decreasing start times and no two notes of
one track overlap; the cursor starts at 0, stays nonnegative, and each
processed pair either leaves the cursor and the melody track unchanged or
advances the cursor by exactly the event's quantized duration value d in
{0.25, 0.5, 1, 2} while the emitted note's stored duration is
max(0.25, 0.9 d) — the cursor advances by d, not by the emitted note's
duration. -/
theorem c6_tracks_ordered (cfg : Config) (points : List TrailPoint) (st : GenState)
    (ht : 60 ≤ cfg.tempo) (hrun : generate_midi_file cfg points = .ok st) :
    (List.Pairwise noteRel st.melodia ∧ List.Pairwise noteRel st.bajos ∧
      List.Pairwise noteRel st.percusion) ∧
    (∀ track ∈ [st.melodia, st.bajos, st.percusion], ∀ n ∈ track,
      0 ≤ n.start ∧ 0 < n.duration ∧ n.start + n.duration ≤ st.time) ∧
    initState.time = 0 ∧ 0 ≤ st.time ∧
    (∀ (geom : Geom) (st' : GenState) (p q : TrailPoint),
      ((procPair cfg geom st' p q).time = st'.time ∧
        (procPair cfg geom st' p q).melodia = st'.melodia) ∨
      ∃ d, (d = 1/4 ∨ d = 1/2 ∨ d = 1 ∨ d = 2) ∧
        (procPair cfg geom st' p q).time = st'.time + d ∧
        (procPair cfg geom st' p q).melodia.map Note.duration =
          st'.melodia.map Note.duration ++ [max (1/4) (d * (9/10))]) := by
  have hst : ∃ geom, st = runAux cfg geom initState (pairsOf points) := by
    unfold generate_midi_file at hrun
    split at hrun
    · exact absurd hrun (by simp)
    · simp only [Except.ok.injEq] at hrun
      exact ⟨_, hrun.symm⟩
  obtain ⟨geom, hgeom⟩ := hst
  have hinv : Inv st := hgeom ▸ runAux_inv cfg geom ht (pairsOf points) initState initState_inv
  obtain ⟨htime, _, _, hmel, hbaj, hperc⟩ := hinv
  refine ⟨⟨hmel.2, hbaj.2, hperc.2⟩, ?_, rfl, htime, ?_⟩
  · intro track htr n hn
    simp only [List.mem_cons, List.not_mem_nil, or_false] at htr
    rcases htr with h | h | h <;> subst h
    · exact hmel.1 n hn
    · exact hbaj.1 n hn
    · exact hperc.1 n hn
  · intro geom' st' p q
    exact procPair_time_cases cfg geom' st' p q

theorem okStateOf_eq (r : Except String GenState) (h : isOkE r = true) :
    r = .ok (okStateOf r) := by
  cases r with
  | error e => simp [isOkE] at h
  | ok s => rfl

/-- Witness for C6 on a concrete run. -/
theorem c6_witness :
    List.Pairwise noteRel (okStateOf (generate_midi_file cfgT ptsFlat2)).melodia ∧
    List.Pairwise noteRel (okStateOf (generate_midi_file cfgT ptsFlat2)).percusion ∧
    0 ≤ (okStateOf (generate_midi_file cfgT ptsFlat2)).time := by
  have h := c6_tracks_ordered cfgT ptsFlat2 (okStateOf (generate_midi_file cfgT ptsFlat2))
    (by decide) (okStateOf_eq _ (by decide))
  exact ⟨h.1.1, h.1.2.2, h.2.2.2.1⟩

/-! Flat-elevation degenerate case (claim C8). -/

theorem altitud_of_zero_range (p : TrailPoint) (v : ℚ) (g : Geom)
    (hr : g.ele_range = 0) : (get_mapping_values p v g).altitud = 1/2 := by
  have : (get_mapping_values p v g).altitud =
      clamp01 (if g.ele_range > 0 then (p.elevation.getD 0 - g.ele_min) / g.ele_range
        else 1/2) := rfl
  rw [this, hr]
  norm_num [clamp01]

theorem foldl_min_const (c : ℚ) : ∀ (l : List ℚ) (e : ℚ), e = c → (∀ x ∈ l, x = c) →
    l.foldl min e = c := by
  intro l
  induction l with
  | nil => intro e he _; exact he
  | cons x rest ih =>
    intro e he hl
    have hx : x = c := hl x (List.mem_cons_self _ _)
    simp only [List.foldl_cons]
    exact ih _ (by rw [he, hx, min_self]) (fun y hy => hl y (List.mem_cons_of_mem _ hy))

theorem foldl_max_const (c : ℚ) : ∀ (l : List ℚ) (e : ℚ), e = c → (∀ x ∈ l, x = c) →
    l.foldl max e = c := by
  intro l
  induction l with
  | nil => intro e he _; exact he
  | cons x rest ih =>
    intro e he hl
    have hx : x = c := hl x (List.mem_cons_self _ _)
    simp only [List.foldl_cons]
    exact ih _ (by rw [he, hx, max_self]) (fun y hy => hl y (List.mem_cons_of_mem _ hy))

theorem runAux_melody_pitch_const (cfg : Config) (geom : Geom)
    (hm : cfg.melody_source = Source.Altitud) (hr : geom.ele_range = 0) :
    ∀ (pairs : List (TrailPoint × TrailPoint)) (st : GenState),
      (∀ n ∈ st.melodia, n.pitch = snap_to_scale (pitch_base + 1/2 * RANGO_NOTAS_MELODIA)) →
      ∀ n ∈ (runAux cfg geom st pairs).melodia,
        n.pitch = snap_to_scale (pitch_base + 1/2 * RANGO_NOTAS_MELODIA) := by
  intro pairs
  induction pairs with
  | nil => intro st h; exact h
  | cons pq rest ih =>
    intro st h
    obtain ⟨p, q⟩ := pq
    have hstep : ∀ (st' : GenState),
        (∀ n ∈ st'.melodia, n.pitch = snap_to_scale (pitch_base + 1/2 * RANGO_NOTAS_MELODIA)) →
        ∀ n ∈ (procPair cfg geom st' p q).melodia,
          n.pitch = snap_to_scale (pitch_base + 1/2 * RANGO_NOTAS_MELODIA) := by
      intro st' h' n hn
      simp only [procPair] at hn
      split at hn
      · rw [eventStep, eventStepWith_melodia] at hn
        rcases List.mem_append.1 hn with hmem | hmem
        · exact h' n hmem
        · simp only [List.mem_singleton] at hmem
          subst hmem
          show snap_to_scale (pitch_base +
            (get_mapping_values q _ geom).get cfg.melody_source * RANGO_NOTAS_MELODIA) = _
          rw [hm]
          show snap_to_scale (pitch_base +
            (get_mapping_values q _ geom).altitud * RANGO_NOTAS_MELODIA) = _
          rw [altitud_of_zero_range _ _ _ hr]
      · exact h' n hn
    simp only [runAux]
    split
    · exact ih st h
    · split
      · exact ih st h
      · split
        · exact hstep st h
        · exact ih _ (hstep st h)

/-- Claim C8: when every elevation-bearing point carries one identical
elevation, normalized elevation falls back to the midpoint 1/2 instead of
dividing by the zero range, and with melody sourced from elevation every
emitted melody pitch is the scale-snapped midpoint of the configured pitch
range, which is 60. -/
theorem c8_flat_elevation_midpoint (cfg : Config) (points : List TrailPoint)
    (st : GenState) (c : ℚ) (hm : cfg.melody_source = Source.Altitud)
    (hall : ∀ p ∈ points, ∀ e, p.elevation = some e → e = c)
    (hrun : generate_midi_file cfg points = .ok st) :
    (∀ (p : TrailPoint) (v : ℚ) (g : Geom), g.ele_range = 0 →
      (get_mapping_values p v g).altitud = 1/2) ∧
    st.melodia.map Note.pitch =
      List.replicate st.melodia.length (snap_to_scale (pitch_base + 1/2 * RANGO_NOTAS_MELODIA)) ∧
    snap_to_scale (pitch_base + 1/2 * RANGO_NOTAS_MELODIA) = 60 := by
  refine ⟨fun p v g hg => altitud_of_zero_range p v g hg, ?_, by decide⟩
  unfold generate_midi_file at hrun
  split at hrun
  · exact absurd hrun (by simp)
  · rename_i e es heq
    simp only [Except.ok.injEq] at hrun
    have hmemall : ∀ x ∈ points.filterMap (fun p => p.elevation), x = c := by
      intro x hx
      obtain ⟨p, hp, hpe⟩ := List.mem_filterMap.1 hx
      exact hall p hp x hpe
    have he : e = c := hmemall e (by rw [heq]; exact List.mem_cons_self _ _)
    have hes : ∀ x ∈ es, x = c := fun x hx =>
      hmemall x (by rw [heq]; exact List.mem_cons_of_mem _ hx)
    have hmin : es.foldl min e = c := foldl_min_const c es e he hes
    have hmax : es.foldl max e = c := foldl_max_const c es e he hes
    have hgr : (⟨es.foldl min e, es.foldl max e, es.foldl max e - es.foldl min e⟩ : Geom).ele_range = 0 := by
      show es.foldl max e - es.foldl min e = 0
      rw [hmin, hmax, sub_self]
    have hpitch := runAux_melody_pitch_const cfg _ hm hgr (pairsOf points) initState
      (by intro n hn; simp [initState] at hn)
    rw [← hrun]
    have hlen : ∀ (l : List Note), (∀ n ∈ l, n.pitch = snap_to_scale (pitch_base + 1/2 * RANGO_NOTAS_MELODIA)) →
        l.map Note.pitch = List.replicate l.length (snap_to_scale (pitch_base + 1/2 * RANGO_NOTAS_MELODIA)) := by
      intro l hl
      have : ∀ y ∈ l.map Note.pitch, y = snap_to_scale (pitch_base + 1/2 * RANGO_NOTAS_MELODIA) := by
        intro y hy
        obtain ⟨n, hn, hny⟩ := List.mem_map.1 hy
        rw [← hny]
        exact hl n hn
      rw [List.eq_replicate_of_mem this, List.length_map]
    exact hlen _ hpitch

/-- Witness for C8: a concrete flat two-point trail yields exactly one
melody note of pitch 60. -/
theorem c8_witness :
    (get_mapping_values (mkP 0 (some 100) (some 0) none) 5 ⟨100, 100, 0⟩).altitud = 1/2 ∧
    (okStateOf (generate_midi_file cfgT ptsFlat2)).melodia.map Note.pitch =
      List.replicate (okStateOf (generate_midi_file cfgT ptsFlat2)).melodia.length 60 := by
  have h := c8_flat_elevation_midpoint cfgT ptsFlat2
    (okStateOf (generate_midi_file cfgT ptsFlat2)) 100 rfl
    (by decide) (okStateOf_eq _ (by decide))
  refine ⟨h.1 _ _ _ rfl, ?_⟩
  rw [h.2.1, h.2.2]

/-! Claim C1: behaviour of the pipeline under a non-positive explicit step. -/

/-- Counterexample to C1 as stated: with an explicit step of zero the
pipeline raises nothing at all — the run succeeds and emits a note. -/
theorem c1_counterexample :
    cfgZeroStep.distance_step_m = 0 ∧
    isOkE (generate_midi_file cfgZeroStep ptsFlat2) = true ∧
    (okStateOf (generate_midi_file cfgZeroStep ptsFlat2)).melodia.length = 1 :=
  ⟨by decide, by decide, by decide⟩

/-- Claim C1, corrected: the code performs no validation of the configured
distance step.  With a non-positive step the threshold never rises above
zero, so every guard-passing pair fires an event and appends a note, and
the pipeline returns a score (it errors only when no point has elevation). -/
theorem c1_no_step_validation (cfg : Config) (geom : Geom) (st : GenState)
    (p q : TrailPoint) (hstep : cfg.distance_step_m ≤ 0)
    (hd : 0 ≤ (cfg.dist3d q p).getD 0)
    (hnext : st.next_note_distance ≤ 0) (hcd : 0 ≤ st.current_distance) :
    (procPair cfg geom st p q).melodia.length = st.melodia.length + 1 ∧
    (procPair cfg geom st p q).next_note_distance ≤ 0 ∧
    0 ≤ (procPair cfg geom st p q).current_distance ∧
    ∀ (points : List TrailPoint), points.filterMap (fun r => r.elevation) ≠ [] →
      ∃ st', generate_midi_file cfg points = .ok st' := by
  have hcond : st.next_note_distance ≤ st.current_distance + (cfg.dist3d q p).getD 0 := by
    linarith
  refine ⟨?_, ?_, ?_, ?_⟩
  · simp only [procPair]
    rw [if_pos hcond, eventStep, eventStepWith_melodia]
    simp
  · simp only [procPair]
    rw [if_pos hcond, eventStep, eventStepWith_next]
    linarith
  · simp only [procPair]
    rw [if_pos hcond, eventStep, eventStepWith_current]
    linarith
  · intro points hne
    unfold generate_midi_file
    split
    · rename_i hnil
      exact absurd hnil hne
    · exact ⟨_, rfl⟩

/-- Witness for the amended C1: with step zero a concrete guard-passing
pair appends a melody note and leaves the threshold non-positive. -/
theorem c1_witness :
    (procPair cfgZeroStep ⟨100, 100, 0⟩ initState (mkP 0 (some 100) (some 0) none)
        (mkP 50 (some 100) (some 10) none)).melodia.length = initState.melodia.length + 1 ∧
    (procPair cfgZeroStep ⟨100, 100, 0⟩ initState (mkP 0 (some 100) (some 0) none)
        (mkP 50 (some 100) (some 10) none)).next_note_distance ≤ 0 := by
  have h := c1_no_step_validation cfgZeroStep ⟨100, 100, 0⟩ initState
    (mkP 0 (some 100) (some 0) none) (mkP 50 (some 100) (some 10) none)
    (by decide) (by decide) (by decide) (by decide)
  exact ⟨h.1, h.2.1⟩

/-! Claim C2: which distance stands in the numerator of the event speed. -/

/-- Counterexample to C2 as stated: on a concrete trail in which 100 m
accumulate between the first and second accepted events in 10 s, the
source's pipeline produces a second note of duration 0.45 (speed
step/elapsed = 5 m/s), while the pipeline using the specification's speed
rule (distance since last event / elapsed = 10 m/s) produces 0.25 — the
code does not divide the distance accumulated since the last event. -/
theorem c2_counterexample :
    (okStateOf (generate_midi_file cfgT ptsSpeed3)).melodia.map Note.duration = [9/5, 9/20] ∧
    (okStateOf (generate_spec_speed cfgT ptsSpeed3)).melodia.map Note.duration = [9/5, 1/4] ∧
    ((9 : ℚ)/20 ≠ 1/4) :=
  ⟨by decide, by decide, by norm_num⟩

/-- Claim C2, corrected: the speed used for feature mapping is the
configured distance step divided by the elapsed seconds since the last
accepted event's timestamp when that elapsed time is positive, the fixed
maximum scaling speed when it is not, and the fixed default 1.67 on the
very first event; the bookkeeping stores the accepted point's timestamp as
the new reference. -/
theorem c2_speed_uses_configured_step (step t t0 : ℚ) (cfg : Config) (geom : Geom)
    (st : GenState) (p q : TrailPoint) :
    avg_speed_calc step none t = 167/100 ∧
    (0 < t - t0 → avg_speed_calc step (some t0) t = step / (t - t0)) ∧
    (¬ 0 < t - t0 → avg_speed_calc step (some t0) t = VELOCIDAD_MAX_PARA_ESCALA) ∧
    (st.next_note_distance ≤ st.current_distance + (cfg.dist3d q p).getD 0 →
      procPair cfg geom st p q =
        eventStepWith cfg geom st q (st.current_distance + (cfg.dist3d q p).getD 0)
          (avg_speed_calc cfg.distance_step_m st.last_point_time (q.time.getD 0)) ∧
      (procPair cfg geom st p q).last_point_time = some (q.time.getD 0)) ∧
    (¬ st.next_note_distance ≤ st.current_distance + (cfg.dist3d q p).getD 0 →
      (procPair cfg geom st p q).last_point_time = st.last_point_time) := by
  refine ⟨rfl, ?_, ?_, ?_, ?_⟩
  · intro h
    simp only [avg_speed_calc]
    rw [if_pos h]
  · intro h
    simp only [avg_speed_calc]
    rw [if_neg h]
  · intro h
    constructor
    · simp only [procPair]
      rw [if_pos h]
      rfl
    · simp only [procPair]
      rw [if_pos h, eventStep, eventStepWith_last]
  · intro h
    simp only [procPair]
    rw [if_neg h]

/-- Witness for the amended C2: the concrete second event of the C2
counterexample trail uses speed 50 m / 10 s = 5 m/s. -/
theorem c2_witness :
    avg_speed_calc 50 none 10 = 167/100 ∧ avg_speed_calc 50 (some 0) 10 = 5 := by
  have h := c2_speed_uses_configured_step 50 10 0 cfgT ⟨100, 100, 0⟩ initState
    (mkP 0 (some 100) (some 0) none) (mkP 50 (some 100) (some 10) none)
  refine ⟨h.1, ?_⟩
  rw [h.2.1 (by norm_num)]
  norm_num

/-! Claim C4: which pairs contribute distance, and what skipping does. -/

/-- Counterexample to C4 as stated: on a trail whose middle point has a
timestamp but no elevation, no consecutive pair has BOTH points complete
(the claim's cumulative distance is 0), yet the run accumulates 30 m —
the increment from the elevation-less middle point to its successor is
counted, because only the predecessor's timestamp is checked. -/
theorem c4_counterexample :
    (okStateOf (generate_midi_file cfgT ptsSkipMid)).current_distance = 30 ∧
    claim_cumulative_distance cfgT.dist3d ptsSkipMid = 0 ∧
    ((30 : ℚ) ≠ 0) :=
  ⟨by decide, by decide, by norm_num⟩

/-- Claim C4, corrected: a point missing elevation or timestamp is skipped
without contributing distance as the current point and without ending the
pass, a pair whose predecessor has no timestamp is likewise skipped, and a
distance increment is added exactly when the current point has elevation
and timestamp and the PREDECESSOR has a timestamp — the predecessor's
elevation is not required. -/
theorem c4_distance_guards (cfg : Config) (geom : Geom) (st : GenState)
    (p q : TrailPoint) (rest : List (TrailPoint × TrailPoint)) :
    (q.elevation = none ∨ q.time = none →
      runAux cfg geom st ((p, q) :: rest) = runAux cfg geom st rest) ∧
    (¬(q.elevation = none ∨ q.time = none) → p.time = none →
      runAux cfg geom st ((p, q) :: rest) = runAux cfg geom st rest) ∧
    ((procPair cfg geom st p q).current_distance =
      st.current_distance + (cfg.dist3d q p).getD 0) := by
  refine ⟨?_, ?_, ?_⟩
  · intro h
    simp only [runAux]
    rw [if_pos h]
  · intro h1 h2
    simp only [runAux]
    rw [if_neg h1, if_pos h2]
  · simp only [procPair]
    split
    · rw [eventStep, eventStepWith_current]
    · rfl

/-- Witness for the amended C4: the concrete elevation-less middle point of
the C4 trail is skipped without ending the run, and the following pair adds
its 30 m increment. -/
theorem c4_witness :
    runAux cfgT ⟨100, 100, 0⟩ initState
        ((mkP 0 (some 100) (some 0) none, mkP 10 none (some 5) none) ::
          [(mkP 10 none (some 5) none, mkP 40 (some 100) (some 10) none)]) =
      runAux cfgT ⟨100, 100, 0⟩ initState
        [(mkP 10 none (some 5) none, mkP 40 (some 100) (some 10) none)] ∧
    (procPair cfgT ⟨100, 100, 0⟩ initState (mkP 10 none (some 5) none)
        (mkP 40 (some 100) (some 10) none)).current_distance =
      initState.current_distance + ((cfgT.dist3d (mkP 40 (some 100) (some 10) none)
        (mkP 10 none (some 5) none)).getD 0) := by
  have h1 := c4_distance_guards cfgT ⟨100, 100, 0⟩ initState
    (mkP 0 (some 100) (some 0) none) (mkP 10 none (some 5) none)
    [(mkP 10 none (some 5) none, mkP 40 (some 100) (some 10) none)]
  have h2 := c4_distance_guards cfgT ⟨100, 100, 0⟩ initState
    (mkP 10 none (some 5) none) (mkP 40 (some 100) (some 10) none) []
  exact ⟨h1.1 (Or.inl rfl), h2.2.2⟩

/-! Claim C10: trails with at most one complete point. -/

/-- Counterexample to C10 as stated: a two-point trail in which only the
second point has both elevation and timestamp still emits one note — the
elevation-less first point serves as the predecessor of an accepted pair. -/
theorem c10_counterexample :
    (ptsOneFull.filter (fun p => p.elevation.isSome && p.time.isSome)).length = 1 ∧
    isOkE (generate_midi_file cfgT ptsOneFull) = true ∧
    (okStateOf (generate_midi_file cfgT ptsOneFull)).melodia.length = 1 :=
  ⟨by decide, by decide, by decide⟩

/-- Claim C10, corrected: the first point of the trail never produces an
event on its own (notes only arise from consecutive pairs, i.e. indices
i > 0): a single-point trail with elevation succeeds and returns a score
with zero notes in every track. -/
theorem c10_single_point_trail (cfg : Config) (p : TrailPoint) (e : ℚ)
    (h : p.elevation = some e) :
    generate_midi_file cfg [p] = .ok initState ∧
    initState.melodia = [] ∧ initState.bajos = [] ∧ initState.percusion = [] ∧
    pairsOf [p] = [] := by
  refine ⟨?_, rfl, rfl, rfl, rfl⟩
  unfold generate_midi_file
  rw [show [p].filterMap (fun r => r.elevation) = [e] by simp [h]]
  rfl

/-- Witness for the amended C10 at a concrete single-point trail. -/
theorem c10_witness :
    generate_midi_file cfgT [mkP 0 (some 100) (some 0) none] = .ok initState ∧
    initState.melodia = [] :=
  have h := c10_single_point_trail cfgT (mkP 0 (some 100) (some 0) none) 100 rfl
  ⟨h.1, h.2.1⟩

end Proofs

end TrailSound
